import Mathlib

/-!
# Verification of the spotify-downloader match-and-acquire pipeline

Shallow embedding of the logical core of `spotify_downloader.py` and
`telegram_bot.py`: the candidate scorer inside `search_youtube_music`,
the filename sanitizer, the Spotify-URL identifier extraction, the
playlist pagination projection, the per-track orchestrator
`download_single_track`, the batch loops of `download_album` /
`download_playlist`, and the success-rate expression inside the
stats command of the bot.

Strings are modelled as `List Char`; external collaborators (the
filesystem, the yt-dlp search/download engine, the artwork fetch and the
tag writer) are modelled as oracles recorded in a `World` record, and
the orchestrator reports which collaborators it invoked and the final
state of the output file in a `RunOutcome` record.
-/

namespace SpotifyDL

/-- A search-result entry returned by the video platform for one query
(`entry` in the loop of `search_youtube_music`).  `duration` is `none`
when the record of the entry has no known duration key. -/
structure Entry where
  url : List Char
  duration : Option Int
deriving DecidableEq

/-- One iteration of the scoring loop of `search_youtube_music`
(lines 213–222): skip null entries and entries without a known duration,
otherwise compute `duration_diff = |duration*1000 - duration_ms|` and keep
the entry when `duration_diff < tol ∧ duration_diff < best_diff`
(`best_diff` starts at infinity, modelled by the `none` state, where the
second conjunct holds vacuously).  The source hardcodes `tol = 10000`. -/
def scanStep (duration_ms tol : Int) (st : Option (Entry × Int)) (oe : Option Entry) :
    Option (Entry × Int) :=
  match oe with
  | none => st
  | some e =>
    match e.duration with
    | none => st
    | some d =>
      let diff : Int := |d * 1000 - duration_ms|
      match st with
      | none => if diff < tol then some (e, diff) else none
      | some (be, bd) => if diff < tol ∧ diff < bd then some (e, diff) else some (be, bd)

/-- The scoring loop of `search_youtube_music` over the full entry list:
fold `scanStep` from the initial (no-match, infinite-difference) state and
return the best matching entry, if any. -/
def select_best_match (duration_ms tol : Int) (es : List (Option Entry)) : Option Entry :=
  (es.foldl (scanStep duration_ms tol) none).map Prod.fst

/-- The candidate selection performed by `search_youtube_music` in
`spotify_downloader.py`, with the hardcoded tolerance of 10000 ms. -/
def search_youtube_music_select (duration_ms : Int) (es : List (Option Entry)) : Option Entry :=
  select_best_match duration_ms 10000 es

/-- The candidates that take part in scoring, paired with their absolute
duration difference from the target: null entries and entries lacking a
known duration are excluded entirely. -/
def scoredCandidates (duration_ms : Int) (es : List (Option Entry)) : List (Entry × Int) :=
  es.filterMap (fun oe => oe.bind (fun e => e.duration.map (fun d => (e, |d * 1000 - duration_ms|))))

/-- Specification-side selector, written from the wording of the spec: among the
scored candidates, restrict to those whose difference is strictly less
than the tolerance, and return the first one whose difference is ≤ every
in-tolerance difference (i.e. the candidate with the smallest difference,
ties broken by first-encountered, input order preserved); `none` when no
candidate is strictly within tolerance, in particular on an empty list. -/
def selectBestSpec (duration_ms tol : Int) (es : List (Option Entry)) : Option Entry :=
  let inTol := (scoredCandidates duration_ms es).filter (fun p => decide (p.2 < tol))
  (inTol.find? (fun p => inTol.all (fun q => decide (p.2 ≤ q.2)))).map Prod.fst

/-- Strict running-minimum step over already-scored, already-in-tolerance
candidates; used to relate the source loop to the specification selector. -/
def pureStep (st p : Entry × Int) : Entry × Int := if p.2 < st.2 then p else st

theorem find?_ext {α : Type} (l : List α) (f g : α → Bool) (h : ∀ x, f x = g x) :
    l.find? f = l.find? g := by
  have hfg : f = g := funext h
  rw [hfg]

theorem foldl_scanStep_some (duration_ms tol : Int) :
    ∀ (es : List (Option Entry)) (st : Entry × Int),
      es.foldl (scanStep duration_ms tol) (some st) =
        some (((scoredCandidates duration_ms es).filter
          (fun p => decide (p.2 < tol))).foldl pureStep st) := by
  intro es
  induction es with
  | nil => intro st; rfl
  | cons oe rest ih =>
    intro st
    obtain ⟨be, bd⟩ := st
    rcases oe with _ | e
    · simpa [scoredCandidates, List.filterMap_cons, scanStep] using ih (be, bd)
    · rcases hd : e.duration with _ | d
      · simp only [List.foldl_cons, scanStep, hd]
        simpa [scoredCandidates, List.filterMap_cons, hd] using ih (be, bd)
      · simp only [List.foldl_cons, scanStep, hd]
        by_cases htol : |d * 1000 - duration_ms| < tol
        · by_cases hbd : |d * 1000 - duration_ms| < bd
          · simp only [htol, hbd, and_self, if_true]
            rw [ih (e, |d * 1000 - duration_ms|)]
            simp [scoredCandidates, List.filterMap_cons, hd, htol, pureStep, hbd]
          · have hcond : ¬ (|d * 1000 - duration_ms| < tol ∧ |d * 1000 - duration_ms| < bd) := by
              exact fun hc => hbd hc.2
            simp only [hcond, if_false]
            rw [ih (be, bd)]
            simp [scoredCandidates, List.filterMap_cons, hd, htol, pureStep, hbd]
        · have hcond : ¬ (|d * 1000 - duration_ms| < tol ∧ |d * 1000 - duration_ms| < bd) := by
            exact fun hc => htol hc.1
          simp only [hcond, if_false]
          rw [ih (be, bd)]
          simp [scoredCandidates, List.filterMap_cons, hd, htol]

theorem foldl_scanStep_none (duration_ms tol : Int) :
    ∀ es : List (Option Entry),
      es.foldl (scanStep duration_ms tol) none =
        (match (scoredCandidates duration_ms es).filter (fun p => decide (p.2 < tol)) with
          | [] => none
          | p :: r => some (r.foldl pureStep p)) := by
  intro es
  induction es with
  | nil => rfl
  | cons oe rest ih =>
    rcases oe with _ | e
    · simpa [scoredCandidates, List.filterMap_cons, scanStep] using ih
    · rcases hd : e.duration with _ | d
      · simp only [List.foldl_cons, scanStep, hd]
        simpa [scoredCandidates, List.filterMap_cons, hd] using ih
      · simp only [List.foldl_cons, scanStep, hd]
        by_cases htol : |d * 1000 - duration_ms| < tol
        · simp only [htol, if_true]
          rw [foldl_scanStep_some]
          simp [scoredCandidates, List.filterMap_cons, hd, htol]
        · simp only [htol, if_false]
          rw [ih]
          simp [scoredCandidates, List.filterMap_cons, hd, htol]

theorem not_true_of_false {b : Bool} (h : b = false) : ¬ (b = true) := by
  rw [h]; exact Bool.false_ne_true

theorem foldl_pureStep_eq_find :
    ∀ (r : List (Entry × Int)) (p : Entry × Int),
      some (r.foldl pureStep p) =
        (p :: r).find? (fun x => (p :: r).all (fun q => decide (x.2 ≤ q.2))) := by
  intro r
  induction r with
  | nil =>
    intro p
    simp [List.find?]
  | cons q t ih =>
    intro p
    rw [List.foldl_cons, ih (pureStep p q)]
    by_cases hq : q.2 < p.2
    · have hpq : pureStep p q = q := if_pos hq
      rw [hpq]
      have hGp : ((p :: q :: t).all fun q' => decide (p.2 ≤ q'.2)) = false := by
        have e1 : decide (p.2 ≤ q.2) = false := decide_eq_false (not_le.mpr hq)
        simp only [List.all_cons, e1, Bool.false_and, Bool.and_false]
      have h1 : (p :: q :: t).find? (fun x => (p :: q :: t).all fun q' => decide (x.2 ≤ q'.2)) =
          (q :: t).find? (fun x => (p :: q :: t).all fun q' => decide (x.2 ≤ q'.2)) :=
        List.find?_cons_of_neg _ (not_true_of_false hGp)
      have h2 : (q :: t).find? (fun x => (p :: q :: t).all fun q' => decide (x.2 ≤ q'.2)) =
          (q :: t).find? (fun x => (q :: t).all fun q' => decide (x.2 ≤ q'.2)) := by
        apply find?_ext
        intro x
        by_cases hx : x.2 ≤ q.2
        · have hxp : decide (x.2 ≤ p.2) = true := by
            simp [le_of_lt (lt_of_le_of_lt hx hq)]
          simp only [List.all_cons, hxp, Bool.true_and]
        · have e1 : decide (x.2 ≤ q.2) = false := decide_eq_false hx
          simp only [List.all_cons, e1, Bool.false_and, Bool.and_false]
      rw [h1, h2]
    · have hpq2 : p.2 ≤ q.2 := not_lt.mp hq
      have hpq : pureStep p q = p := if_neg hq
      rw [hpq]
      have h2 : (p :: q :: t).find? (fun x => (p :: q :: t).all fun q' => decide (x.2 ≤ q'.2)) =
          (p :: q :: t).find? (fun x => (p :: t).all fun q' => decide (x.2 ≤ q'.2)) := by
        apply find?_ext
        intro x
        by_cases hx : x.2 ≤ p.2
        · have e1 : decide (x.2 ≤ q.2) = true := by simp [le_trans hx hpq2]
          simp only [List.all_cons, e1, Bool.true_and]
        · have e1 : decide (x.2 ≤ p.2) = false := decide_eq_false hx
          simp only [List.all_cons, e1, Bool.false_and]
      rw [h2]
      by_cases hFp : ((p :: t).all fun q' => decide (p.2 ≤ q'.2)) = true
      · rw [List.find?_cons_of_pos (p := fun x => (p :: t).all fun q' => decide (x.2 ≤ q'.2)) t hFp,
          List.find?_cons_of_pos (p := fun x => (p :: t).all fun q' => decide (x.2 ≤ q'.2)) (q :: t) hFp]
      · have hFp' : ((p :: t).all fun q' => decide (p.2 ≤ q'.2)) = false := by
          revert hFp; cases ((p :: t).all fun q' => decide (p.2 ≤ q'.2)) <;> simp
        have hFq : ((p :: t).all fun q' => decide (q.2 ≤ q'.2)) = false := by
          by_cases hqp : q.2 ≤ p.2
          · have heq : q.2 = p.2 := le_antisymm hqp hpq2
            rw [heq]
            exact hFp'
          · have e1 : decide (q.2 ≤ p.2) = false := decide_eq_false hqp
            simp only [List.all_cons, e1, Bool.false_and]
        rw [List.find?_cons_of_neg (p := fun x => (p :: t).all fun q' => decide (x.2 ≤ q'.2)) t
            (not_true_of_false hFp'),
          List.find?_cons_of_neg (p := fun x => (p :: t).all fun q' => decide (x.2 ≤ q'.2)) (q :: t)
            (not_true_of_false hFp'),
          List.find?_cons_of_neg (p := fun x => (p :: t).all fun q' => decide (x.2 ≤ q'.2)) t
            (not_true_of_false hFq)]

theorem select_eq_spec (duration_ms tol : Int) (es : List (Option Entry)) :
    select_best_match duration_ms tol es = selectBestSpec duration_ms tol es := by
  unfold select_best_match selectBestSpec
  rw [foldl_scanStep_none]
  cases h : (scoredCandidates duration_ms es).filter (fun p => decide (p.2 < tol)) with
  | nil => simp
  | cons p r =>
    show Option.map Prod.fst (some (List.foldl pureStep p r)) =
      Option.map Prod.fst ((p :: r).find? (fun x => (p :: r).all fun q => decide (x.2 ≤ q.2)))
    rw [← foldl_pureStep_eq_find]

/-- C1: for every target duration and candidate list, the scoring loop of
`search_youtube_music` considers only candidates with a known duration,
and returns the candidate whose absolute duration difference is smallest
and strictly below the tolerance (10000 ms in the source), ties broken by
the first-encountered candidate in input order; when no candidate is
strictly within tolerance — in particular on the empty list — it returns
`none` (the Python loop cannot throw: the `except` path is outside it). -/
theorem claim_C1_candidate_scorer :
    (∀ (duration_ms : Int) (es : List (Option Entry)),
        search_youtube_music_select duration_ms es = selectBestSpec duration_ms 10000 es)
    ∧ (∀ duration_ms : Int, search_youtube_music_select duration_ms [] = none) := by
  refine ⟨fun t es => select_eq_spec t 10000 es, fun t => rfl⟩

/-- Modelled from the spec: the second downloader script of the repository
(a near-duplicate of `spotify_downloader.py`, not present under `src/`)
implements Policy B (lenient/fallback mode): when no candidate has a duration
difference within the tolerance window, return the first candidate in
the input sequence regardless of duration fit; otherwise behave as the
strict selector. -/
def select_best_lenient (duration_ms tol : Int) (es : List (Option Entry)) : Option Entry :=
  match select_best_match duration_ms tol es with
  | some e => some e
  | none => (es.filterMap id).head?

theorem select_best_match_eq_none (duration_ms tol : Int) (es : List (Option Entry))
    (h : ∀ p ∈ scoredCandidates duration_ms es, ¬ p.2 < tol) :
    select_best_match duration_ms tol es = none := by
  unfold select_best_match
  rw [foldl_scanStep_none]
  have hf : (scoredCandidates duration_ms es).filter (fun p => decide (p.2 < tol)) = [] := by
    rw [List.filter_eq_nil_iff]
    intro a ha
    simpa using h a ha
  rw [hf]
  rfl

/-- C2: a lenient/fallback scoring mode exists alongside the strict one:
on every candidate list in which no scored candidate has a duration
difference within tolerance, the fallback policy returns the first candidate of
the input sequence while the strict policy returns `none`; the two
policies are separate selectable definitions. -/
theorem claim_C2_lenient_fallback :
    ∀ (duration_ms tol : Int) (es : List (Option Entry)),
      (∀ p ∈ scoredCandidates duration_ms es, ¬ p.2 < tol) →
      select_best_lenient duration_ms tol es = (es.filterMap id).head?
      ∧ select_best_match duration_ms tol es = none := by
  intro t tol es h
  have hs := select_best_match_eq_none t tol es h
  refine ⟨?_, hs⟩
  unfold select_best_lenient
  rw [hs]

/-- Witness for C2 at a concrete input: a single candidate 320 s away from
the target is outside the tolerance, so the strict policy rejects it and
the fallback policy returns it as the first candidate. -/
theorem claim_C2_witness :
    select_best_lenient 0 10000 [some ⟨[Char.ofNat 117], some 500⟩] =
      (([some ⟨[Char.ofNat 117], some 500⟩] : List (Option Entry)).filterMap id).head?
    ∧ select_best_match 0 10000 [some ⟨[Char.ofNat 117], some 500⟩] = none :=
  claim_C2_lenient_fallback 0 10000 [some ⟨[Char.ofNat 117], some 500⟩] (by decide)

/-- The characters removed by the regex character class inside
sanitize_filename; the entry written as Char.ofNat 34 is the double-quote
character and the backslash is escaped. -/
def invalid_chars : List Char := ['<', '>', ':', Char.ofNat 34, '/', '\\', '|', '?', '*']

/-- Embedding of sanitize_filename (lines 330–336): remove every occurrence
of a character from `invalid_chars` (the regex substitution with the empty
replacement), then truncate to 200 characters when longer. -/
def sanitize_filename (s : List Char) : List Char :=
  let filename := s.filter (fun c => !(invalid_chars.contains c))
  if filename.length > 200 then filename.take 200 else filename

/-- C8: the sanitizer is a deterministic total function whose output never
contains a forbidden character, is the identity on forbidden-free inputs of
at most 200 characters (in particular the empty string), and always has
length at most 200. -/
theorem claim_C8_sanitizer :
    (∀ s : List Char, ∀ c ∈ sanitize_filename s, c ∉ invalid_chars)
    ∧ (∀ s : List Char, s.length ≤ 200 → (∀ c ∈ s, c ∉ invalid_chars) →
        sanitize_filename s = s)
    ∧ sanitize_filename [] = []
    ∧ (∀ s : List Char, (sanitize_filename s).length ≤ 200) := by
  refine ⟨?_, ?_, rfl, ?_⟩
  · intro s c hc
    unfold sanitize_filename at hc
    have hc' : c ∈ s.filter (fun c => !(invalid_chars.contains c)) := by
      by_cases h : (s.filter (fun c => !(invalid_chars.contains c))).length > 200
      · rw [if_pos h] at hc
        exact List.take_subset _ _ hc
      · rw [if_neg h] at hc
        exact hc
    have hmem := (List.mem_filter.mp hc').2
    simpa using hmem
  · intro s hlen hfree
    unfold sanitize_filename
    have hfe : s.filter (fun c => !(invalid_chars.contains c)) = s := by
      apply List.filter_eq_self.mpr
      intro a ha
      simpa using hfree a ha
    rw [hfe, if_neg (by omega)]
  · intro s
    unfold sanitize_filename
    by_cases h : (s.filter (fun c => !(invalid_chars.contains c))).length > 200
    · rw [if_pos h, List.length_take]
      omega
    · rw [if_neg h]
      omega

/-- Witness for C8 at concrete inputs: a clean two-character name passes
through unchanged. -/
theorem claim_C8_witness : sanitize_filename ['a', 'b'] = ['a', 'b'] :=
  claim_C8_sanitizer.2.1 ['a', 'b'] (by decide) (by decide)

/-- The canonical per-track metadata record built by `get_track_metadata`,
`get_album_tracks` and `get_playlist_tracks`. -/
structure TrackMeta where
  id : List Char
  title : List Char
  artist : List Char
  album : List Char
  release_date : List Char
  track_number : Nat
  album_art_url : Option (List Char)
  duration_ms : Int
deriving DecidableEq

/-- External-collaborator oracle for one run of `download_single_track`:
the outcome of the YouTube search, the filesystem answer to the
pre-check existence test, whether the artwork fetch succeeds, the boolean
returned by `download_audio`, whether the mp3 file actually exists after
the `download_audio` call, and the boolean returned by `inject_metadata`. -/
structure World where
  searchResult : Option Entry
  exists0 : List Char → Bool
  artOk : Bool
  dlOk : Bool
  dlCreates : Bool
  tagOk : Bool

/-- Observable outcome of one `download_single_track` run: the returned
boolean plus which collaborators were invoked, whether the temporary
artwork file was deleted, and whether the output mp3 exists afterwards. -/
structure RunOutcome where
  ok : Bool
  artFetchInvoked : Bool
  audioInvoked : Bool
  tagInvoked : Bool
  artDeleted : Bool
  mp3Exists : Bool
deriving DecidableEq

def downloads_dir : List Char := "downloads/".data

/-- Line 357: safe_title is the sanitized title-dash-artist display string. -/
def safe_title (m : TrackMeta) : List Char :=
  sanitize_filename (m.title ++ " - ".data ++ m.artist)

/-- Line 359: the deterministic output path, downloads slash safe_title dot mp3. -/
def final_mp3_path (m : TrackMeta) : List Char :=
  downloads_dir ++ safe_title m ++ ".mp3".data

/-- Line 360: the transient artwork path, a cover-jpg sibling of the output. -/
def album_art_path (m : TrackMeta) : List Char :=
  downloads_dir ++ safe_title m ++ "_cover.jpg".data

/-- Embedding of download_single_track (lines 338–392): search first; on no match
return `False`; otherwise skip-and-return-`True` when the output file
already exists; otherwise fetch artwork best-effort when a cover URL is
present, run `download_audio`, fail unless it reported success *and* the
output file exists, then call `inject_metadata` (its boolean result is
ignored by the source), delete the artwork file when present, and return
`True`. -/
def download_single_track (w : World) (m : TrackMeta) : RunOutcome :=
  match w.searchResult with
  | none =>
    { ok := false, artFetchInvoked := false, audioInvoked := false,
      tagInvoked := false, artDeleted := false,
      mp3Exists := w.exists0 (final_mp3_path m) }
  | some _ =>
    if w.exists0 (final_mp3_path m) then
      { ok := true, artFetchInvoked := false, audioInvoked := false,
        tagInvoked := false, artDeleted := false, mp3Exists := true }
    else
      let artFetch := m.album_art_url.isSome
      let artFile := (artFetch && w.artOk) || w.exists0 (album_art_path m)
      if w.dlOk = false ∨ w.dlCreates = false then
        { ok := false, artFetchInvoked := artFetch, audioInvoked := true,
          tagInvoked := false, artDeleted := false, mp3Exists := w.dlCreates }
      else
        { ok := true, artFetchInvoked := artFetch, audioInvoked := true,
          tagInvoked := true, artDeleted := artFile, mp3Exists := true }

/-- C3 counterexample: a track whose output file already exists on disk,
but whose search step finds no candidate, makes `download_single_track`
return `False` (line 351 runs before the existence pre-check of line 362),
not `Success` as the claim states for *every* such track. -/
theorem claim_C3_counterexample :
    (World.mk none (fun _ => true) true true true true).exists0
        (final_mp3_path ⟨['i'], ['t'], ['a'], ['l'], ['r'], 1, none, 1000⟩) = true
    ∧ ¬ ((download_single_track (World.mk none (fun _ => true) true true true true)
        ⟨['i'], ['t'], ['a'], ['l'], ['r'], 1, none, 1000⟩).ok = true) := by
  decide

/-- C3 amended: provided the search step still returns a candidate, a
track whose output file already exists terminates with `True` (Success)
without invoking the artwork fetch, the acquisition collaborator or the
tag writer, deleting nothing and leaving the file in place. -/
theorem claim_C3_idempotent_skip :
    ∀ (w : World) (m : TrackMeta) (e : Entry),
      w.searchResult = some e → w.exists0 (final_mp3_path m) = true →
      download_single_track w m =
        { ok := true, artFetchInvoked := false, audioInvoked := false,
          tagInvoked := false, artDeleted := false, mp3Exists := true } := by
  intro w m e hs hx
  unfold download_single_track
  rw [hs]
  simp [hx]

/-- Witness for the amended claim C3 at a concrete world and track. -/
theorem claim_C3_witness :
    download_single_track
        (World.mk (some ⟨['u'], some 1⟩) (fun _ => true) true true true true)
        ⟨['i'], ['t'], ['a'], ['l'], ['r'], 1, none, 1000⟩ =
      { ok := true, artFetchInvoked := false, audioInvoked := false,
        tagInvoked := false, artDeleted := false, mp3Exists := true } :=
  claim_C3_idempotent_skip _ _ ⟨['u'], some 1⟩ rfl rfl

/-- C5 counterexample: when acquisition succeeds and `inject_metadata`
fails (`tagOk = false`), `download_single_track` still returns `True` —
the same value as a fully-successful run — because line 379 discards
the boolean returned by inject_metadata; there is no TagFailed outcome distinguished
from `Success`. -/
theorem claim_C5_counterexample :
    (World.mk (some ⟨['u'], some 1⟩) (fun _ => false) true true true false).tagOk = false
    ∧ (download_single_track
        (World.mk (some ⟨['u'], some 1⟩) (fun _ => false) true true true false)
        ⟨['i'], ['t'], ['a'], ['l'], ['r'], 1, none, 1000⟩).tagInvoked = true
    ∧ (download_single_track
        (World.mk (some ⟨['u'], some 1⟩) (fun _ => false) true true true false)
        ⟨['i'], ['t'], ['a'], ['l'], ['r'], 1, none, 1000⟩).ok = true := by
  decide

/-- C5 amended: when acquisition succeeds but tag embedding fails, the
orchestrator still reports the ordinary success outcome (`True`, not a
distinct `TagFailed` state) and the produced audio file remains on disk. -/
theorem claim_C5_tag_failure_keeps_file :
    ∀ (w : World) (m : TrackMeta) (e : Entry),
      w.searchResult = some e → w.exists0 (final_mp3_path m) = false →
      w.dlOk = true → w.dlCreates = true → w.tagOk = false →
      (download_single_track w m).ok = true
      ∧ (download_single_track w m).mp3Exists = true
      ∧ (download_single_track w m).tagInvoked = true := by
  intro w m e hs hx hdl hcr _htag
  unfold download_single_track
  rw [hs]
  simp [hx, hdl, hcr]

/-- Witness for the amended claim C5 at a concrete world and track. -/
theorem claim_C5_witness :
    (download_single_track
        (World.mk (some ⟨['u'], some 1⟩) (fun _ => false) true true true false)
        ⟨['i'], ['t'], ['a'], ['l'], ['r'], 1, none, 1000⟩).ok = true
    ∧ (download_single_track
        (World.mk (some ⟨['u'], some 1⟩) (fun _ => false) true true true false)
        ⟨['i'], ['t'], ['a'], ['l'], ['r'], 1, none, 1000⟩).mp3Exists = true
    ∧ (download_single_track
        (World.mk (some ⟨['u'], some 1⟩) (fun _ => false) true true true false)
        ⟨['i'], ['t'], ['a'], ['l'], ['r'], 1, none, 1000⟩).tagInvoked = true :=
  claim_C5_tag_failure_keeps_file _ _ ⟨['u'], some 1⟩ rfl rfl rfl rfl rfl

/-- C6: if `download_audio` reports success but the expected mp3 file does
not exist at the computed path, `download_single_track` returns `False`
(line 373 checks `not success or not final_mp3_path.exists()`); and in
general it never returns `True` while the output file is absent. -/
theorem claim_C6_verify_artifact :
    (∀ (w : World) (m : TrackMeta) (e : Entry),
        w.searchResult = some e → w.exists0 (final_mp3_path m) = false →
        w.dlOk = true → w.dlCreates = false →
        (download_single_track w m).ok = false)
    ∧ (∀ (w : World) (m : TrackMeta),
        (download_single_track w m).ok = true →
        (download_single_track w m).mp3Exists = true) := by
  constructor
  · intro w m e hs hx hdl hcr
    unfold download_single_track
    rw [hs]
    simp [hx, hdl, hcr]
  · intro w m
    unfold download_single_track
    cases hs : w.searchResult with
    | none => simp
    | some e =>
      by_cases hx : w.exists0 (final_mp3_path m) = true
      · simp [hx]
      · have hx' : w.exists0 (final_mp3_path m) = false := by
          revert hx; cases w.exists0 (final_mp3_path m) <;> simp
        by_cases hd : w.dlOk = false ∨ w.dlCreates = false
        · simp [hx', hd]
        · simp [hx', hd]

/-- Witness for C6 at a concrete world and track: the collaborator reports
success yet no file exists, and the run is a failure. -/
theorem claim_C6_witness :
    (download_single_track
        (World.mk (some ⟨['u'], some 1⟩) (fun _ => false) true true false true)
        ⟨['i'], ['t'], ['a'], ['l'], ['r'], 1, none, 1000⟩).ok = false :=
  claim_C6_verify_artifact.1 _ _ ⟨['u'], some 1⟩ rfl rfl rfl rfl

/-- The boolean outcome of one batch item: each track is processed through
`download_single_track` with its own collaborator oracle. -/
def run_track (it : World × TrackMeta) : Bool :=
  (download_single_track it.1 it.2).ok

/-- The `for metadata in tracks` loop of `download_album` (lines 442–450):
increment `successful` or `failed` after every item and always continue to
the next item (the loop body catches everything; nothing aborts it). -/
def download_album_loop : List (World × TrackMeta) → Nat × Nat → Nat × Nat
  | [], acc => acc
  | it :: rest, (s, f) =>
    if run_track it then download_album_loop rest (s + 1, f)
    else download_album_loop rest (s, f + 1)

/-- Counters produced by `download_album` over a whole track list. -/
def download_album_counts (items : List (World × TrackMeta)) : Nat × Nat :=
  download_album_loop items (0, 0)

/-- The identical `for metadata in tracks` loop of `download_playlist`
(lines 479–487); the source duplicates it verbatim. -/
def download_playlist_loop : List (World × TrackMeta) → Nat × Nat → Nat × Nat
  | [], acc => acc
  | it :: rest, (s, f) =>
    if run_track it then download_playlist_loop rest (s + 1, f)
    else download_playlist_loop rest (s, f + 1)

/-- Counters produced by `download_playlist` over a whole track list. -/
def download_playlist_counts (items : List (World × TrackMeta)) : Nat × Nat :=
  download_playlist_loop items (0, 0)

theorem download_album_loop_eq (items : List (World × TrackMeta)) :
    ∀ s f : Nat, download_album_loop items (s, f) =
      (s + (items.map run_track).count true, f + (items.map run_track).count false) := by
  induction items with
  | nil => intro s f; simp [download_album_loop]
  | cons it rest ih =>
    intro s f
    by_cases h : run_track it
    · simp only [download_album_loop, h, if_true, ih, List.map_cons]
      rw [List.count_cons, List.count_cons]
      simp [h]
      omega
    · simp only [download_album_loop, h, if_false, ih, List.map_cons]
      rw [List.count_cons, List.count_cons]
      have h' : run_track it = false := by
        revert h; cases run_track it <;> simp
      simp [h']
      omega

theorem download_playlist_loop_eq (items : List (World × TrackMeta)) :
    ∀ s f : Nat, download_playlist_loop items (s, f) = download_album_loop items (s, f) := by
  induction items with
  | nil => intro s f; rfl
  | cons it rest ih =>
    intro s f
    by_cases h : run_track it
    · simp only [download_playlist_loop, download_album_loop, h, if_true, ih]
    · simp only [download_playlist_loop, download_album_loop, h, if_false, ih]

theorem count_true_add_count_false (l : List Bool) :
    l.count true + l.count false = l.length := by
  induction l with
  | nil => rfl
  | cons b rest ih =>
    rw [List.count_cons, List.count_cons]
    cases b <;> simp <;> omega

/-- C4: both batch runners attempt every one of the `n` tracks — the
counters are exactly the counts of `true` and `false` over the per-track
outcomes of the *entire* input list, so no failure stops later tracks —
and `succeeded + failed = attempted = n` at completion. -/
theorem claim_C4_batch_counters :
    ∀ items : List (World × TrackMeta),
      download_album_counts items =
        ((items.map run_track).count true, (items.map run_track).count false)
      ∧ (download_album_counts items).1 + (download_album_counts items).2 = items.length
      ∧ download_playlist_counts items =
        ((items.map run_track).count true, (items.map run_track).count false)
      ∧ (download_playlist_counts items).1 + (download_playlist_counts items).2
          = items.length := by
  intro items
  have ha : download_album_counts items =
      ((items.map run_track).count true, (items.map run_track).count false) := by
    unfold download_album_counts
    rw [download_album_loop_eq]
    simp
  have hp : download_playlist_counts items =
      ((items.map run_track).count true, (items.map run_track).count false) := by
    unfold download_playlist_counts
    rw [download_playlist_loop_eq, download_album_loop_eq]
    simp
  have hlen : (items.map run_track).count true + (items.map run_track).count false
      = items.length := by
    rw [count_true_add_count_false, List.length_map]
  exact ⟨ha, by rw [ha]; exact hlen, hp, by rw [hp]; exact hlen⟩

/-- The nested catalog record behind the track field of one playlist item
(the fields consumed by `get_playlist_tracks`, lines 161–170). -/
structure SpTrack where
  id : List Char
  name : List Char
  artists : List (List Char)
  album_name : List Char
  album_release_date : List Char
  album_images : List (List Char)
  track_number : Nat
  duration_ms : Int
deriving DecidableEq

/-- The metadata dict built for one playlist item (lines 161–170):
artists joined with a comma, first album image as cover URL or `None`. -/
def playlistItemMeta (t : SpTrack) : TrackMeta :=
  { id := t.id
    title := t.name
    artist := List.intercalate ", ".data t.artists
    album := t.album_name
    release_date := t.album_release_date
    track_number := t.track_number
    album_art_url := t.album_images.head?
    duration_ms := t.duration_ms }

/-- One page of the paginated playlist response; `items` holds `None` for
catalog-side tombstones, where the track field of the item is null.  The
continuation chain returned by the paging call is modelled by the list of
successive pages, exhausted in order by the while loop. -/
structure Page where
  items : List (Option SpTrack)

/-- The inner per-item loop over the items of one page: skip null track
references, append the projected metadata of the rest in page order. -/
def pageTracks : List (Option SpTrack) → List TrackMeta
  | [] => []
  | none :: rest => pageTracks rest
  | some t :: rest => playlistItemMeta t :: pageTracks rest

/-- The `while results:` pagination loop of `get_playlist_tracks`
(lines 154–177), accumulating into `tracks` across pages. -/
def get_playlist_tracks_loop (acc : List TrackMeta) : List Page → List TrackMeta
  | [] => acc
  | pg :: rest => get_playlist_tracks_loop (acc ++ pageTracks pg.items) rest

/-- Embedding of get_playlist_tracks: follow the continuation pages to exhaustion,
starting from an empty accumulator. -/
def get_playlist_tracks (pages : List Page) : List TrackMeta :=
  get_playlist_tracks_loop [] pages

theorem pageTracks_eq_filterMap (l : List (Option SpTrack)) :
    pageTracks l = l.filterMap (fun it => it.map playlistItemMeta) := by
  induction l with
  | nil => rfl
  | cons it rest ih =>
    cases it with
    | none => simpa [pageTracks, List.filterMap_cons] using ih
    | some t => simpa [pageTracks, List.filterMap_cons] using ih

theorem get_playlist_tracks_loop_eq (pages : List Page) :
    ∀ acc : List TrackMeta,
      get_playlist_tracks_loop acc pages =
        acc ++ (pages.map (fun pg => pg.items.filterMap
          (fun it => it.map playlistItemMeta))).flatten := by
  induction pages with
  | nil => intro acc; simp [get_playlist_tracks_loop]
  | cons pg rest ih =>
    intro acc
    rw [get_playlist_tracks_loop, ih, pageTracks_eq_filterMap]
    simp [List.flatten, List.append_assoc]

/-- C7: the playlist projection follows the continuation pages until all
are exhausted and returns the concatenation, in original catalog order, of
the entries of every page with null track references skipped; no partial-page
result is ever produced (the result is always the full concatenation). -/
theorem claim_C7_playlist_pagination :
    ∀ pages : List Page,
      get_playlist_tracks pages =
        (pages.map (fun pg => pg.items.filterMap
          (fun it => it.map playlistItemMeta))).flatten := by
  intro pages
  unfold get_playlist_tracks
  rw [get_playlist_tracks_loop_eq]
  simp

/-- The success-rate expression inside the stats command of the bot
(line 110): divide downloads by downloads+failed and scale by 100 when the
sum is positive, else 0, with
the float division of Python modelled as exact rational division (the
guard property at stake does not depend on rounding). -/
def stats_success_rate (downloads failed : Nat) : ℚ :=
  if downloads + failed > 0 then
    (downloads : ℚ) / ((downloads : ℚ) + (failed : ℚ)) * 100
  else 0

/-- C10: the per-user statistics computation is total — when both counters
are zero the guard yields 0 without dividing, and whenever the guard takes
the division branch the denominator is provably nonzero and the result is
a genuine quotient (multiplying back by the denominator recovers
`downloads * 100`). -/
theorem claim_C10_stats_total :
    ∀ downloads failed : Nat,
      (downloads + failed = 0 → stats_success_rate downloads failed = 0)
      ∧ (0 < downloads + failed →
          ((downloads : ℚ) + (failed : ℚ) ≠ 0
            ∧ stats_success_rate downloads failed * ((downloads : ℚ) + (failed : ℚ))
              = (downloads : ℚ) * 100)) := by
  intro downloads failed
  constructor
  · intro h
    unfold stats_success_rate
    rw [if_neg (by omega)]
  · intro h
    have hden : ((downloads : ℚ) + (failed : ℚ)) ≠ 0 := by
      have hne : ((downloads + failed : ℕ) : ℚ) ≠ 0 := Nat.cast_ne_zero.mpr (by omega)
      push_cast at hne
      exact hne
    refine ⟨hden, ?_⟩
    unfold stats_success_rate
    rw [if_pos h]
    field_simp

/-- Witness for C10 at concrete counters 1 successful, 1 failed. -/
theorem claim_C10_witness :
    ((1 : ℚ) + (1 : ℚ) ≠ 0
      ∧ stats_success_rate 1 1 * ((1 : ℚ) + (1 : ℚ)) = (1 : ℚ) * 100) :=
  (claim_C10_stats_total 1 1).2 (by decide)

/-- Membership in the regex character class a-zA-Z0-9. -/
def isAlnumChar (c : Char) : Bool :=
  (decide (Char.ofNat 97 ≤ c) && decide (c ≤ Char.ofNat 122))
    || (decide (Char.ofNat 65 ≤ c) && decide (c ≤ Char.ofNat 90))
    || (decide (Char.ofNat 48 ≤ c) && decide (c ≤ Char.ofNat 57))

/-- Attempt to match the regex pat followed by exactly 22 alphanumeric
characters at the start of s, returning the captured 22-character
identifier; the regex also matches when more alphanumerics follow, the
capture group taking the first 22, exactly as the fixed-width class does. -/
def matchIdAt (pat s : List Char) : Option (List Char) :=
  if s.take pat.length = pat then
    if ((s.drop pat.length).take 22).length = 22
        ∧ ((s.drop pat.length).take 22).all isAlnumChar then
      some ((s.drop pat.length).take 22)
    else none
  else none

/-- The left-to-right scan performed by re.search: try the match at every
start position, first match wins. -/
def reSearchId (pat : List Char) : List Char → Option (List Char)
  | [] => matchIdAt pat []
  | c :: rest =>
    match matchIdAt pat (c :: rest) with
    | some r => some r
    | none => reSearchId pat rest

theorem reSearchId_eq (pat s : List Char) :
    reSearchId pat s =
      (match matchIdAt pat s with
        | some r => some r
        | none =>
          match s with
          | [] => none
          | _ :: rest => reSearchId pat rest) := by
  cases s with
  | nil =>
    show matchIdAt pat [] = _
    cases matchIdAt pat [] <;> rfl
  | cons c rest => rfl

theorem matchIdAt_sound {pat s r : List Char} (h : matchIdAt pat s = some r) :
    ∃ b, s = pat ++ r ++ b ∧ r.length = 22 ∧ r.all isAlnumChar = true := by
  unfold matchIdAt at h
  by_cases h1 : s.take pat.length = pat
  · rw [if_pos h1] at h
    by_cases h2 : ((s.drop pat.length).take 22).length = 22
        ∧ ((s.drop pat.length).take 22).all isAlnumChar
    · rw [if_pos h2] at h
      injection h with h
      subst h
      refine ⟨(s.drop pat.length).drop 22, ?_, h2.1, h2.2⟩
      calc s = s.take pat.length ++ s.drop pat.length := (List.take_append_drop _ _).symm
        _ = pat ++ s.drop pat.length := by rw [h1]
        _ = pat ++ ((s.drop pat.length).take 22 ++ (s.drop pat.length).drop 22) := by
              rw [List.take_append_drop]
        _ = pat ++ (s.drop pat.length).take 22 ++ (s.drop pat.length).drop 22 := by
              rw [List.append_assoc]
    · rw [if_neg h2] at h
      cases h
  · rw [if_neg h1] at h
    cases h

theorem matchIdAt_complete {pat idc b : List Char} (h22 : idc.length = 22)
    (hal : idc.all isAlnumChar = true) :
    matchIdAt pat (pat ++ idc ++ b) = some idc := by
  unfold matchIdAt
  have hassoc : pat ++ idc ++ b = pat ++ (idc ++ b) := by rw [List.append_assoc]
  have h1 : (pat ++ idc ++ b).take pat.length = pat := by
    rw [hassoc, List.take_left]
  have hdrop : (pat ++ idc ++ b).drop pat.length = idc ++ b := by
    rw [hassoc, List.drop_left]
  have htake : ((pat ++ idc ++ b).drop pat.length).take 22 = idc := by
    rw [hdrop, ← h22, List.take_left]
  rw [if_pos h1, htake, if_pos ⟨h22, hal⟩]

theorem reSearchId_sound {pat : List Char} :
    ∀ (s r : List Char), reSearchId pat s = some r →
      ∃ a b, s = a ++ pat ++ r ++ b ∧ r.length = 22 ∧ r.all isAlnumChar = true := by
  intro s
  induction s with
  | nil =>
    intro r h
    obtain ⟨b, hb, h22, hal⟩ := matchIdAt_sound (h : matchIdAt pat [] = some r)
    exact ⟨[], b, by simpa using hb, h22, hal⟩
  | cons c rest ih =>
    intro r h
    unfold reSearchId at h
    cases hm : matchIdAt pat (c :: rest) with
    | some r' =>
      rw [hm] at h
      injection h with h
      subst h
      obtain ⟨b, hb, h22, hal⟩ := matchIdAt_sound hm
      refine ⟨[], b, by simpa using hb, h22, hal⟩
    | none =>
      rw [hm] at h
      obtain ⟨a, b, hab, h22, hal⟩ := ih r h
      exact ⟨c :: a, b, by simp [hab], h22, hal⟩

theorem reSearchId_complete (pat : List Char) :
    ∀ (a idc b : List Char), idc.length = 22 → idc.all isAlnumChar = true →
      (reSearchId pat (a ++ pat ++ idc ++ b)).isSome = true := by
  intro a
  induction a with
  | nil =>
    intro idc b h22 hal
    have hs : ([] : List Char) ++ pat ++ idc ++ b = pat ++ idc ++ b := by simp
    rw [hs, reSearchId_eq, matchIdAt_complete h22 hal]
    rfl
  | cons c a2 ih =>
    intro idc b h22 hal
    have hs : (c :: a2) ++ pat ++ idc ++ b = c :: (a2 ++ pat ++ idc ++ b) := by simp
    rw [hs, reSearchId_eq]
    cases hm : matchIdAt pat (c :: (a2 ++ pat ++ idc ++ b)) with
    | some r => rfl
    | none => exact ih idc b h22 hal

def track_pattern : List Char := "track/".data

def album_pattern : List Char := "album/".data

def playlist_pattern : List Char := "playlist/".data

inductive SpotifyKind where
  | track
  | album
  | playlist
deriving DecidableEq

def kindPattern : SpotifyKind → List Char
  | .track => track_pattern
  | .album => album_pattern
  | .playlist => playlist_pattern

/-- The extract_spotify_info function (lines 76–93): try the track, album
and playlist regexes in that order on the raw input string and return the
kind together with the captured 22-character identifier; when none of the
three patterns occurs anywhere in the input, report no match (the source
returns a pair of Nones, modelled as none) instead of throwing. -/
def extract_spotify_info (url : List Char) : Option (SpotifyKind × List Char) :=
  match reSearchId track_pattern url with
  | some idc => some (SpotifyKind.track, idc)
  | none =>
    match reSearchId album_pattern url with
    | some idc => some (SpotifyKind.album, idc)
    | none =>
      match reSearchId playlist_pattern url with
      | some idc => some (SpotifyKind.playlist, idc)
      | none => none

/-- The given pattern occurs somewhere in s followed by the given
22-character alphanumeric identifier, surrounding text arbitrary. -/
def occursWithId (pat idc s : List Char) : Prop :=
  ∃ a b, s = a ++ pat ++ idc ++ b ∧ idc.length = 22 ∧ idc.all isAlnumChar = true

/-- The given pattern occurs somewhere in s followed by some 22-character
alphanumeric identifier. -/
def hasIdPattern (pat s : List Char) : Prop :=
  ∃ idc, occursWithId pat idc s

/-- C9: identifier extraction is a total pure pattern match: whenever the
input contains one of the three segments followed by a 22-character
alphanumeric identifier, the function returns a kind/identifier pair such
that the returned identifier actually follows the segment of the returned
kind in the input (surrounding text ignored, no URL normalization); whenever
the input contains none of the three patterns it returns the no-match
result rather than throwing. -/
theorem claim_C9_extract :
    (∀ url : List Char,
        (hasIdPattern track_pattern url ∨ hasIdPattern album_pattern url
          ∨ hasIdPattern playlist_pattern url) →
        ∃ k idc, extract_spotify_info url = some (k, idc)
          ∧ occursWithId (kindPattern k) idc url)
    ∧ (∀ url : List Char,
        ¬ (hasIdPattern track_pattern url ∨ hasIdPattern album_pattern url
          ∨ hasIdPattern playlist_pattern url) →
        extract_spotify_info url = none) := by
  constructor
  · intro url h
    cases ht : reSearchId track_pattern url with
    | some idc =>
      refine ⟨SpotifyKind.track, idc, ?_, ?_⟩
      · unfold extract_spotify_info
        rw [ht]
      · exact reSearchId_sound url idc ht
    | none =>
      cases ha : reSearchId album_pattern url with
      | some idc =>
        refine ⟨SpotifyKind.album, idc, ?_, ?_⟩
        · unfold extract_spotify_info
          rw [ht, ha]
        · exact reSearchId_sound url idc ha
      | none =>
        cases hp : reSearchId playlist_pattern url with
        | some idc =>
          refine ⟨SpotifyKind.playlist, idc, ?_, ?_⟩
          · unfold extract_spotify_info
            rw [ht, ha, hp]
          · exact reSearchId_sound url idc hp
        | none =>
          exfalso
          rcases h with h | h | h
          · obtain ⟨idc, a, b, hab, h22, hal⟩ := h
            have hc := reSearchId_complete track_pattern a idc b h22 hal
            rw [← hab, ht] at hc
            cases hc
          · obtain ⟨idc, a, b, hab, h22, hal⟩ := h
            have hc := reSearchId_complete album_pattern a idc b h22 hal
            rw [← hab, ha] at hc
            cases hc
          · obtain ⟨idc, a, b, hab, h22, hal⟩ := h
            have hc := reSearchId_complete playlist_pattern a idc b h22 hal
            rw [← hab, hp] at hc
            cases hc
  · intro url h
    cases ht : reSearchId track_pattern url with
    | some idc => exact absurd (Or.inl ⟨idc, reSearchId_sound url idc ht⟩) h
    | none =>
      cases ha : reSearchId album_pattern url with
      | some idc => exact absurd (Or.inr (Or.inl ⟨idc, reSearchId_sound url idc ha⟩)) h
      | none =>
        cases hp : reSearchId playlist_pattern url with
        | some idc => exact absurd (Or.inr (Or.inr ⟨idc, reSearchId_sound url idc hp⟩)) h
        | none =>
          unfold extract_spotify_info
          rw [ht, ha, hp]

/-- Witness for C9 at concrete inputs: a minimal track URL is extracted
with its identifier, and an input with no pattern yields no match. -/
theorem claim_C9_witness :
    (∃ k idc,
        extract_spotify_info ("track/".data ++ List.replicate 22 (Char.ofNat 97))
          = some (k, idc)
        ∧ occursWithId (kindPattern k) idc
            ("track/".data ++ List.replicate 22 (Char.ofNat 97)))
    ∧ extract_spotify_info "hello".data = none := by
  constructor
  · exact claim_C9_extract.1 _
      (Or.inl ⟨List.replicate 22 (Char.ofNat 97), [], [], by decide, by decide, by decide⟩)
  · apply claim_C9_extract.2
    intro h
    rcases h with h | h | h
    · obtain ⟨idc, a, b, hab, h22, hal⟩ := h
      have hc := reSearchId_complete track_pattern a idc b h22 hal
      rw [← hab] at hc
      exact absurd hc (by decide)
    · obtain ⟨idc, a, b, hab, h22, hal⟩ := h
      have hc := reSearchId_complete album_pattern a idc b h22 hal
      rw [← hab] at hc
      exact absurd hc (by decide)
    · obtain ⟨idc, a, b, hab, h22, hal⟩ := h
      have hc := reSearchId_complete playlist_pattern a idc b h22 hal
      rw [← hab] at hc
      exact absurd hc (by decide)

end SpotifyDL
